import Mathlib

/-!
Shallow embedding of the menhera-inet address library.

The source files embedded here are `src/ipv4.rs`, `src/ipv6.rs`,
`src/inet.rs` and `src/dns/mod.rs`.  Machine integers (`u8`, `u16`, `u32`)
are modelled as `Nat` with explicit truncation (`% 256`, subtraction from
`0xffffffff` for complement) exactly where the Rust code can wrap or
truncate.  `Result<T, E>` is modelled by `RustResult`, `Option<T>` by
`Option`.  Raw addresses (`[u8; 4]`, `[u8; 16]`) are `List Nat` of the
corresponding length.  Behaviour of external dependencies used by the
code (the standard library's address and integer parsers, the `ipnet`
constructors, the `regex` matchers) is embedded faithfully from their
documented semantics, since the repository code calls into them.
-/

/-- Rust's `Result<T, E>` with `DecidableEq` so theorems can be settled by
evaluation. -/
inductive RustResult (ε : Type) (α : Type) where
  | err (e : ε)
  | ok (value : α)
deriving DecidableEq, Repr

/-- `str::split(c)` on a list of characters: splitting on `c` yields the
(possibly empty) segments between occurrences of `c`; the result is never
empty, and splitting the empty string yields `[[]]`, matching Rust's
`split` iterator. -/
def splitOnChar (c : Char) : List Char → List (List Char)
  | [] => [[]]
  | x :: xs =>
    if x = c then [] :: splitOnChar c xs
    else
      match splitOnChar c xs with
      | [] => [[x]]
      | p :: ps => (x :: p) :: ps

theorem splitOnChar_ne_nil (c : Char) (l : List Char) : splitOnChar c l ≠ [] := by
  induction l with
  | nil => simp [splitOnChar]
  | cons x xs ih =>
    simp only [splitOnChar]
    split
    · simp
    · split
      · simp
      · simp

theorem splitOnChar_length (c : Char) (l : List Char) :
    (splitOnChar c l).length = l.count c + 1 := by
  induction l with
  | nil => simp [splitOnChar]
  | cons x xs ih =>
    simp only [splitOnChar]
    by_cases hx : x = c
    · subst hx
      simp [List.count_cons, ih]
    · rw [if_neg hx]
      rcases h : splitOnChar c xs with _ | ⟨p, ps⟩
      · exact absurd h (splitOnChar_ne_nil c xs)
      · have hc := ih
        rw [h] at hc
        simp only [List.length_cons] at hc ⊢
        rw [List.count_cons_of_ne (Ne.symm hx)]
        omega

theorem splitOnChar_of_not_mem (c : Char) (l : List Char) (h : c ∉ l) :
    splitOnChar c l = [l] := by
  induction l with
  | nil => simp [splitOnChar]
  | cons x xs ih =>
    simp only [splitOnChar]
    have hx : x ≠ c := fun hxc => h (hxc ▸ List.mem_cons_self x xs)
    rw [if_neg hx, ih (fun hc => h (List.mem_cons_of_mem x hc))]

theorem splitOnChar_append_cons (c : Char) (a b : List Char) (h : c ∉ a) :
    splitOnChar c (a ++ c :: b) = a :: splitOnChar c b := by
  induction a with
  | nil => simp [splitOnChar]
  | cons x xs ih =>
    simp only [List.cons_append, splitOnChar]
    have hx : x ≠ c := fun hxc => h (hxc ▸ List.mem_cons_self x xs)
    rw [if_neg hx]
    have ih' := ih (fun hc => h (List.mem_cons_of_mem x hc))
    show (match splitOnChar c (xs ++ c :: b) with
          | [] => [[x]]
          | p :: ps => (x :: p) :: ps) = (x :: xs) :: splitOnChar c b
    rw [ih']

/-- One decimal ASCII digit, as in Rust's `char::to_digit(10)` restricted
to the decimal case. -/
def decDigit (c : Char) : Option Nat :=
  if '0' ≤ c ∧ c ≤ '9' then some (c.toNat - 48) else none

/-- Digit-accumulation loop of Rust's `u8::from_str` (`from_str_radix`
with radix 10 on `u8`): consumes decimal digits left to right, failing
(`none`) on the first non-digit or whenever the checked arithmetic on
`u8` would overflow (accumulator exceeding 255). -/
def parseU8Core : List Char → Nat → Option Nat
  | [], acc => some acc
  | c :: cs, acc =>
    match decDigit c with
    | none => none
    | some d =>
      let acc' := acc * 10 + d
      if 255 < acc' then none else parseU8Core cs acc'

/-- Rust's `str::parse::<u8>()`: rejects the empty string, allows one
leading `+` (but not `+` alone, and `-` is rejected for unsigned types),
then parses decimal digits with `u8` checked arithmetic; any value above
255 overflows to a parse error. -/
def parseU8 (s : List Char) : Option Nat :=
  match s with
  | [] => none
  | '+' :: rest => if rest.isEmpty then none else parseU8Core rest 0
  | cs => parseU8Core cs 0

/-- `char::to_digit(radix)`: digits `0-9` then letters `a-z`/`A-Z` as
10..35, accepted only below the radix. -/
def toDigit (radix : Nat) (c : Char) : Option Nat :=
  let d : Option Nat :=
    if '0' ≤ c ∧ c ≤ '9' then some (c.toNat - 48)
    else if 'a' ≤ c ∧ c ≤ 'z' then some (c.toNat - 97 + 10)
    else if 'A' ≤ c ∧ c ≤ 'Z' then some (c.toNat - 65 + 10)
    else none
  d.bind (fun v => if v < radix then some v else none)

/-- Digit loop of `core::net::parser::Parser::read_number`: reads digits
greedily in the given radix, tracking the digit count; fails when the
checked arithmetic on the target integer type (maximum value `bound`)
overflows, or when more than `maxDigits` digits are read.  Returns the
value, the digit count, and the unconsumed input. -/
def readDigits (radix bound : Nat) (maxDigits : Option Nat) :
    List Char → Nat → Nat → Option (Nat × Nat × List Char)
  | [], acc, cnt => some (acc, cnt, [])
  | c :: cs, acc, cnt =>
    match toDigit radix c with
    | none => some (acc, cnt, c :: cs)
    | some d =>
      let acc' := acc * radix + d
      if bound < acc' then none
      else
        match maxDigits with
        | some m => if m < cnt + 1 then none
                    else readDigits radix bound maxDigits cs acc' (cnt + 1)
        | none => readDigits radix bound maxDigits cs acc' (cnt + 1)

/-- `core::net::parser::Parser::read_number`: at least one digit, optional
rejection of a leading zero followed by further digits (used by the IPv4
octet parser), atomic (consumes nothing on failure, which the `Option`
result models). -/
def readNumber (radix bound : Nat) (maxDigits : Option Nat) (zeroPfxOk : Bool)
    (cs : List Char) : Option (Nat × List Char) :=
  let hasLeadingZero : Bool := match cs with
    | '0' :: _ => true
    | _ => false
  match readDigits radix bound maxDigits cs 0 0 with
  | none => none
  | some (v, cnt, rest) =>
    if cnt = 0 then none
    else if !zeroPfxOk && hasLeadingZero && 1 < cnt then none
    else some (v, rest)

/-- `core::net::parser::Parser::read_ipv4_addr`: four decimal octets, each
at most 3 digits with no leading zero and value at most 255, separated by
single dots. -/
def readIpv4Addr (cs : List Char) : Option ((Nat × Nat × Nat × Nat) × List Char) := do
  let (a, cs) ← readNumber 10 255 (some 3) false cs
  let cs ← match cs with
    | '.' :: cs' => some cs'
    | _ => none
  let (b, cs) ← readNumber 10 255 (some 3) false cs
  let cs ← match cs with
    | '.' :: cs' => some cs'
    | _ => none
  let (c, cs) ← readNumber 10 255 (some 3) false cs
  let cs ← match cs with
    | '.' :: cs' => some cs'
    | _ => none
  let (d, cs) ← readNumber 10 255 (some 3) false cs
  some ((a, b, c, d), cs)

/-- `Ipv4Addr::from_str`: the whole string must be consumed by
`read_ipv4_addr`.  Result is the 4 big-endian octets. -/
def parseIpv4 (cs : List Char) : Option (List Nat) :=
  match readIpv4Addr cs with
  | some ((a, b, c, d), []) => some [a, b, c, d]
  | _ => none

/-- `core::net::parser::Parser::read_separator`: when the group index is
positive, a `:` separator must be consumed before the inner read; the
whole thing is atomic. -/
def readSep (i : Nat) (inner : List Char → Option (α × List Char))
    (cs : List Char) : Option (α × List Char) :=
  if i = 0 then inner cs
  else
    match cs with
    | ':' :: cs' => inner cs'
    | _ => none

/-- Group loop of `read_ipv6_addr::read_groups`, counting down the
remaining slots.  `i` is the index of the current slot inside this call.
At each slot with at least two slots remaining, a trailing embedded IPv4
address is tried first and, on success, contributes two 16-bit groups and
ends the loop with the `usedIpv4` flag set.  Otherwise a hexadecimal
group of at most 4 digits (leading zeros allowed) is read.  Returns the
groups read (in order), the embedded-IPv4 flag, and the rest of the
input. -/
def readIpv6Groups : Nat → Nat → List Char → List Nat → (List Nat × Bool × List Char)
  | 0, _, cs, acc => (acc.reverse, false, cs)
  | n + 1, i, cs, acc =>
    match (if 1 ≤ n then readSep i readIpv4Addr cs else none) with
    | some ((a, b, c, d), cs') =>
      (acc.reverse ++ [a * 256 + b, c * 256 + d], true, cs')
    | none =>
      match readSep i (readNumber 16 65535 (some 4) true) cs with
      | some (v, cs') => readIpv6Groups n (i + 1) cs' (v :: acc)
      | none => (acc.reverse, false, cs)

/-- `core::net::parser::Parser::read_ipv6_addr`: up to 8 leading groups;
a full 8 groups is a complete address; otherwise an embedded IPv4 part is
not allowed before `::`, a literal `::` must follow, and the remaining
groups (at most `8 - head - 1`) fill the tail, with the gap zero-filled.
Returns the 8 16-bit groups. -/
def readIpv6Addr (cs : List Char) : Option (List Nat × List Char) :=
  match readIpv6Groups 8 0 cs [] with
  | (head, headV4, cs₁) =>
    if head.length = 8 then some (head, cs₁)
    else if headV4 then none
    else
      match cs₁ with
      | ':' :: ':' :: cs₂ =>
        match readIpv6Groups (8 - (head.length + 1)) 0 cs₂ [] with
        | (tail, _, cs₃) =>
          some (head ++ List.replicate (8 - head.length - tail.length) 0 ++ tail, cs₃)
      | _ => none

/-- Big-endian bytes of a list of 16-bit groups (`Ipv6Addr::octets`). -/
def groupsToBytes (gs : List Nat) : List Nat :=
  gs.flatMap (fun g => [g / 256, g % 256])

/-- `Ipv6Addr::from_str`: the whole string must be consumed by
`read_ipv6_addr`.  Result is the 16 big-endian octets. -/
def parseIpv6 (cs : List Char) : Option (List Nat) :=
  match readIpv6Addr cs with
  | some (gs, []) => some (groupsToBytes gs)
  | _ => none

/-- `ipv4_subnet_mask` from `src/ipv4.rs`: start from `0xffffffff : u32`,
`checked_shr(prefix_len)` (which yields `None`, hence 0 via `unwrap_or`,
when the shift is at least the 32-bit width), bitwise complement (on a
`u32`, `!m = 0xffffffff - m`), then big-endian bytes. -/
def ipv4_subnet_mask (prefix_len : Nat) : List Nat :=
  let mask : Nat := 0xffffffff
  let mask : Nat := if 32 ≤ prefix_len then 0 else mask >>> prefix_len
  let mask : Nat := 0xffffffff - mask
  [(mask >>> 24) % 256, (mask >>> 16) % 256, (mask >>> 8) % 256, mask % 256]

/-- `ipv4_network_address` from `src/ipv4.rs`: byte-wise AND of the
address with the subnet mask, over indices 0..4. -/
def ipv4_network_address (ip : List Nat) (prefix_len : Nat) : List Nat :=
  let mask := ipv4_subnet_mask prefix_len
  (List.range 4).map (fun i => ip.getD i 0 &&& mask.getD i 0)

/-- `Ipv4Error` from `src/ipv4.rs`: a unit error type. -/
inductive Ipv4Error where
  | mk
deriving DecidableEq, Repr

/-- `Ipv4Target` from `src/ipv4.rs`: 4 raw address bytes plus an optional
prefix length. -/
structure Ipv4Target where
  ip : List Nat
  prefix_len : Option Nat
deriving DecidableEq, Repr

/-- `Ipv4Target::new` from `src/ipv4.rs`: with a prefix present, reject a
prefix above 32, then reject an address that differs from its own network
address under that prefix. -/
def Ipv4Target.new (ip : List Nat) (prefix_len : Option Nat) :
    RustResult Ipv4Error Ipv4Target :=
  match prefix_len with
  | some p =>
    if 32 < p then .err .mk
    else if ip ≠ ipv4_network_address ip p then .err .mk
    else .ok ⟨ip, some p⟩
  | none => .ok ⟨ip, none⟩

/-- `ipnet::Ipv4Net` (external dependency): an address plus a prefix
length. -/
structure Ipv4Net where
  addr : List Nat
  prefix_len : Nat
deriving DecidableEq, Repr

/-- `ipnet::Ipv4Net::new` (external dependency): fails with
`PrefixLenError` exactly when the prefix length exceeds 32. -/
def ipv4NetNew (addr : List Nat) (prefix_len : Nat) : Option Ipv4Net :=
  if prefix_len ≤ 32 then some ⟨addr, prefix_len⟩ else none

/-- `Ipv4Target::net` from `src/ipv4.rs`.  The outer `Option` is the
`prefix_len.map`; the inner `Option` is the `ipnet::Ipv4Net::new` result
whose `unwrap` panics on `none` (so `some none` marks the panic). -/
def Ipv4Target.net (t : Ipv4Target) : Option (Option Ipv4Net) :=
  t.prefix_len.map (fun p => ipv4NetNew (ipv4_network_address t.ip p) p)

/-- `prefix_len > W` guard applied to the optional parsed prefix in both
`FromStr` impls (`W` = 32 for IPv4, 128 for IPv6). -/
def prefixOutOfRange (w : Nat) : Option Nat → Bool
  | some p => w < p
  | none => false

/-- `<Ipv4Target as FromStr>::from_str` body after splitting on `/`:
`ipStr` is the first segment and `rest` the remaining segments.  The
optional prefix is the second segment parsed as `u8`, with a parse
failure flattened to `None`; a prefix above 32, a third segment, an
unparsable address, or a non-canonical network address are errors. -/
def ipv4FromParts (ipStr : List Char) (rest : List (List Char)) :
    RustResult Ipv4Error Ipv4Target :=
  let prefix_len : Option Nat := rest.head?.bind parseU8
  if prefixOutOfRange 32 prefix_len then .err .mk
  else if 2 ≤ rest.length then .err .mk
  else
    match parseIpv4 ipStr with
    | none => .err .mk
    | some ip =>
      match prefix_len with
      | some p =>
        if ip ≠ ipv4_network_address ip p then .err .mk
        else .ok ⟨ip, some p⟩
      | none => .ok ⟨ip, none⟩

/-- `<Ipv4Target as FromStr>::from_str` from `src/ipv4.rs`: split the
input on `/` (the split iterator always yields a first element) and
process the parts. -/
def ipv4FromChars (s : List Char) : RustResult Ipv4Error Ipv4Target :=
  match splitOnChar '/' s with
  | [] => .err .mk
  | ipStr :: rest => ipv4FromParts ipStr rest

/-- `ipv6_subnet_mask` from `src/ipv6.rs`: start from 16 zero bytes, set
bytes `0 .. prefix_len / 8` to `0xff`, and when `prefix_len % 8 ≠ 0` set
byte `prefix_len / 8` to `0xff << (8 - prefix_len % 8)` truncated to a
`u8`.  `List.set` is a no-op out of bounds, where the Rust indexing would
panic; `ipv6MaskInBounds` captures that panic condition separately. -/
def ipv6_subnet_mask (prefix_len : Nat) : List Nat :=
  let mask : List Nat := List.replicate 16 0
  let mask := (List.range (prefix_len / 8)).foldl (fun m i => m.set i 0xff) mask
  if prefix_len % 8 ≠ 0 then
    mask.set (prefix_len / 8) ((0xff <<< (8 - prefix_len % 8)) % 256)
  else mask

/-- Index-in-bounds condition for the writes performed by
`ipv6_subnet_mask` on its 16-byte array: the loop writes indices below
`prefix_len / 8` and the conditional partial byte writes index
`prefix_len / 8`; an out-of-bounds index panics in Rust. -/
def ipv6MaskInBounds (prefix_len : Nat) : Bool :=
  (prefix_len / 8 ≤ 16) && (prefix_len % 8 = 0 || prefix_len / 8 < 16)

/-- `ipv6_network_address` from `src/ipv6.rs`: byte-wise AND of the
address with the subnet mask, over indices 0..16. -/
def ipv6_network_address (ip : List Nat) (prefix_len : Nat) : List Nat :=
  let mask := ipv6_subnet_mask prefix_len
  (List.range 16).map (fun i => ip.getD i 0 &&& mask.getD i 0)

/-- `Ipv6Error` from `src/ipv6.rs`: a unit error type. -/
inductive Ipv6Error where
  | mk
deriving DecidableEq, Repr

/-- `Ipv6Target` from `src/ipv6.rs`: 16 raw address bytes plus an optional
prefix length. -/
structure Ipv6Target where
  ip : List Nat
  prefix_len : Option Nat
deriving DecidableEq, Repr

/-- `Ipv6Target::new` from `src/ipv6.rs`: with a prefix present, reject a
prefix above 128, then reject an address that differs from its own
network address under that prefix. -/
def Ipv6Target.new (ip : List Nat) (prefix_len : Option Nat) :
    RustResult Ipv6Error Ipv6Target :=
  match prefix_len with
  | some p =>
    if 128 < p then .err .mk
    else if ip ≠ ipv6_network_address ip p then .err .mk
    else .ok ⟨ip, some p⟩
  | none => .ok ⟨ip, none⟩

/-- `ipnet::Ipv6Net` (external dependency): an address plus a prefix
length. -/
structure Ipv6Net where
  addr : List Nat
  prefix_len : Nat
deriving DecidableEq, Repr

/-- `ipnet::Ipv6Net::new` (external dependency): fails with
`PrefixLenError` exactly when the prefix length exceeds 128. -/
def ipv6NetNew (addr : List Nat) (prefix_len : Nat) : Option Ipv6Net :=
  if prefix_len ≤ 128 then some ⟨addr, prefix_len⟩ else none

/-- `Ipv6Target::net` from `src/ipv6.rs`; `some none` marks the `unwrap`
panic on a `PrefixLenError`, as for IPv4. -/
def Ipv6Target.net (t : Ipv6Target) : Option (Option Ipv6Net) :=
  t.prefix_len.map (fun p => ipv6NetNew (ipv6_network_address t.ip p) p)

/-- `<Ipv6Target as FromStr>::from_str` body after splitting on `/`,
mirroring `ipv4FromParts` with bit width 128 and the IPv6 address
parser. -/
def ipv6FromParts (ipStr : List Char) (rest : List (List Char)) :
    RustResult Ipv6Error Ipv6Target :=
  let prefix_len : Option Nat := rest.head?.bind parseU8
  if prefixOutOfRange 128 prefix_len then .err .mk
  else if 2 ≤ rest.length then .err .mk
  else
    match parseIpv6 ipStr with
    | none => .err .mk
    | some ip =>
      match prefix_len with
      | some p =>
        if ip ≠ ipv6_network_address ip p then .err .mk
        else .ok ⟨ip, some p⟩
      | none => .ok ⟨ip, none⟩

/-- `<Ipv6Target as FromStr>::from_str` from `src/ipv6.rs`. -/
def ipv6FromChars (s : List Char) : RustResult Ipv6Error Ipv6Target :=
  match splitOnChar '/' s with
  | [] => .err .mk
  | ipStr :: rest => ipv6FromParts ipStr rest

/-- `InetError` from `src/inet.rs`. -/
inductive InetError where
  | V4 (e : Ipv4Error)
  | V6 (e : Ipv6Error)
  | Other
deriving DecidableEq, Repr

/-- `InetTarget` from `src/inet.rs`. -/
inductive InetTarget where
  | V4 (t : Ipv4Target)
  | V6 (t : Ipv6Target)
deriving DecidableEq, Repr

/-- `<InetTarget as FromStr>::from_str` from `src/inet.rs`: try the IPv4
parse; on failure try the IPv6 parse; on failure of both return
`InetError::Other`. -/
def inetFromChars (s : List Char) : RustResult InetError InetTarget :=
  match ipv4FromChars s with
  | .ok v4 => .ok (.V4 v4)
  | .err _ =>
    match ipv6FromChars s with
    | .ok v6 => .ok (.V6 v6)
    | .err _ => .err .Other

/-- `DnsError` from `src/dns/mod.rs`. -/
inductive DnsError where
  | InvalidInput
  | ProtocolError
deriving DecidableEq, Repr

/-- ASCII decimal digit test. -/
def isAsciiDigitChar (c : Char) : Bool :=
  '0' ≤ c && c ≤ '9'

/-- ASCII letter-or-digit test, covering `[a-z0-9]` under the regex
crate's case-insensitive flag, restricted to ASCII input. -/
def isAsciiAlnum (c : Char) : Bool :=
  ('a' ≤ c && c ≤ 'z') || ('A' ≤ c && c ≤ 'Z') || isAsciiDigitChar c

/-- Tail of a DNS label of length at least 2: all characters but the last
must be in `[a-z0-9-]`, the last in `[a-z0-9]` (case-insensitively). -/
def dnsLabelTail : List Char → Bool
  | [] => false
  | [c] => isAsciiAlnum c
  | c :: rest => (isAsciiAlnum c || c = '-') && dnsLabelTail rest

/-- Language of the `RE_DNS_LABEL` regex from `src/dns/mod.rs`,
`(?i)^[a-z0-9]([a-z0-9-]{0,61}[a-z0-9])?$`, on ASCII input: one
alphanumeric character, or an alphanumeric character followed by at most
61 characters from `[a-z0-9-]` and a final alphanumeric character (so 1
to 63 characters in total). -/
def matchesDnsLabelRe (cs : List Char) : Bool :=
  match cs with
  | [] => false
  | [c] => isAsciiAlnum c
  | c :: rest => isAsciiAlnum c && rest.length ≤ 62 && dnsLabelTail rest

/-- Language of the `RE_DIGITS_ONLY` regex from `src/dns/mod.rs`,
`^\d+$`, on ASCII input: one or more decimal digits. -/
def matchesDigitsOnlyRe (cs : List Char) : Bool :=
  !cs.isEmpty && cs.all isAsciiDigitChar

/-- `is_valid_dns_host_label` from `src/dns/mod.rs`: matches the label
regex and is not composed entirely of digits. -/
def is_valid_dns_host_label (cs : List Char) : Bool :=
  matchesDnsLabelRe cs && !matchesDigitsOnlyRe cs

/-- `str::trim_end_matches('.')`: removes every trailing dot. -/
def trimTrailingDots (cs : List Char) : List Char :=
  (cs.reverse.dropWhile (fun c => c = '.')).reverse

/-- `is_valid_dns_host` from `src/dns/mod.rs`: strip trailing dots,
reject the empty string, and require every `.`-separated label to be
valid. -/
def is_valid_dns_host (host : List Char) : Bool :=
  let host := trimTrailingDots host
  !host.isEmpty && (splitOnChar '.' host).all is_valid_dns_host_label

/-- `DnsHostname::new` from `src/dns/mod.rs`, applied to the normalized
string produced by the structural DNS-name parse (`hickory_proto`'s
`rr::Name::from_str` followed by `to_string`, an external dependency
modelled as having already succeeded with output `h`): accept exactly
when `is_valid_dns_host` holds, else fail with `InvalidInput`. -/
def dnsHostnameNewNormalized (h : List Char) : RustResult DnsError (List Char) :=
  if is_valid_dns_host h then .ok h else .err .InvalidInput

/-- `std::net::SocketAddr`: one socket address of either family (the port
is irrelevant to the classification and omitted). -/
inductive SockAddr where
  | V4 (ip : List Nat)
  | V6 (ip : List Nat)
deriving DecidableEq, Repr

/-- `ResolvedAddrs` from `src/dns/mod.rs`. -/
structure ResolvedAddrs where
  v4 : List (List Nat)
  v6 : List (List Nat)
deriving DecidableEq, Repr

/-- The classification loop of `DnsHostname::resolve_blocking` from
`src/dns/mod.rs`: push each socket address onto the list of its own
family, in iteration order. -/
def classifyAddrs (addrs : List SockAddr) : ResolvedAddrs :=
  addrs.foldl
    (fun r a =>
      match a with
      | .V4 ip => { r with v4 := r.v4 ++ [ip] }
      | .V6 ip => { r with v6 := r.v6 ++ [ip] })
    ⟨[], []⟩

/-- `DnsHostname::resolve_blocking` from `src/dns/mod.rs`, with the
platform resolver's outcome passed as input: a resolver failure becomes
`ProtocolError`, a successful resolution is classified by family. -/
def resolve_blocking (res : RustResult Unit (List SockAddr)) :
    RustResult DnsError ResolvedAddrs :=
  match res with
  | .err _ => .err .ProtocolError
  | .ok addrs => .ok (classifyAddrs addrs)

/-- A byte with `k` leading one bits (for `k ≤ 8`): the reference value
for one big-endian byte of a subnet mask. -/
def byteOnes (k : Nat) : Nat :=
  255 - (2 ^ (8 - k) - 1)

/-- Reference subnet mask of `w` bytes for prefix length `p`: byte `i`
has `min 8 (p - 8*i)` leading one bits, so exactly the first `p` bits of
the whole mask (most-significant bit first, big-endian byte order) are
1. -/
def refSubnetMask (w p : Nat) : List Nat :=
  (List.range w).map (fun i => byteOnes (min 8 (p - 8 * i)))

theorem getD_range_map (f : Nat → Nat) (w i : Nat) (h : i < w) :
    ((List.range w).map f).getD i 0 = f i := by
  simp [List.getD_eq_getElem?_getD, List.getElem?_map, List.getElem?_range h]

theorem byteOnes_testBit (k : Nat) (hk : k ≤ 8) (j : Nat) (hj : j < 8) :
    (byteOnes k).testBit (7 - j) = decide (j < k) := by
  revert k j
  decide

theorem refSubnetMask_getD (w p i : Nat) (h : i < w) :
    (refSubnetMask w p).getD i 0 = byteOnes (min 8 (p - 8 * i)) := by
  rw [refSubnetMask, getD_range_map _ _ _ h]

theorem refSubnetMask_testBit (w p i j : Nat) (hi : i < w) (hj : j < 8) :
    ((refSubnetMask w p).getD i 0).testBit (7 - j) = decide (8 * i + j < p) := by
  rw [refSubnetMask_getD w p i hi,
    byteOnes_testBit (min 8 (p - 8 * i)) (Nat.min_le_left 8 _) j hj]
  simp only [decide_eq_decide]
  omega

theorem ipv4_subnet_mask_eq_ref (p : Nat) (hp : p ≤ 32) :
    ipv4_subnet_mask p = refSubnetMask 4 p := by
  revert p
  decide

theorem ipv6_subnet_mask_eq_ref (p : Nat) (hp : p ≤ 128) :
    ipv6_subnet_mask p = refSubnetMask 16 p := by
  revert p
  decide

theorem ipv4_network_address_getD (ip : List Nat) (p i : Nat) (hi : i < 4) :
    (ipv4_network_address ip p).getD i 0 = ip.getD i 0 &&& (ipv4_subnet_mask p).getD i 0 := by
  rw [ipv4_network_address, getD_range_map _ _ _ hi]

theorem ipv6_network_address_getD (ip : List Nat) (p i : Nat) (hi : i < 16) :
    (ipv6_network_address ip p).getD i 0 = ip.getD i 0 &&& (ipv6_subnet_mask p).getD i 0 := by
  rw [ipv6_network_address, getD_range_map _ _ _ hi]

/-- C2: for every prefix length within the family bit width, both the
IPv4 `u32`-shift construction and the IPv6 per-byte construction of the
subnet mask equal the reference mask whose first `prefix_len` bits (from
the most-significant bit, in big-endian byte order) are 1 and whose
remaining bits are 0 — stated both as list equality with the reference
mask (covering the edge cases `prefix_len = 0` and the full width) and as
a per-bit characterization — and byte-wise AND of an address with this
mask yields the network address: each network byte is the AND of the
address byte with the mask byte, so each network bit keeps the address
bit inside the prefix and clears it outside. -/
theorem C2_subnet_mask_correct :
    (∀ p, p ≤ 32 → ipv4_subnet_mask p = refSubnetMask 4 p) ∧
    (∀ p, p ≤ 128 → ipv6_subnet_mask p = refSubnetMask 16 p) ∧
    (∀ p i j, p ≤ 32 → i < 4 → j < 8 →
      ((ipv4_subnet_mask p).getD i 0).testBit (7 - j) = decide (8 * i + j < p)) ∧
    (∀ p i j, p ≤ 128 → i < 16 → j < 8 →
      ((ipv6_subnet_mask p).getD i 0).testBit (7 - j) = decide (8 * i + j < p)) ∧
    (∀ ip p i, i < 4 →
      (ipv4_network_address ip p).getD i 0 = ip.getD i 0 &&& (ipv4_subnet_mask p).getD i 0) ∧
    (∀ ip p i, i < 16 →
      (ipv6_network_address ip p).getD i 0 = ip.getD i 0 &&& (ipv6_subnet_mask p).getD i 0) ∧
    (∀ ip p i j, p ≤ 32 → i < 4 → j < 8 →
      ((ipv4_network_address ip p).getD i 0).testBit (7 - j)
        = ((ip.getD i 0).testBit (7 - j) && decide (8 * i + j < p))) ∧
    (∀ ip p i j, p ≤ 128 → i < 16 → j < 8 →
      ((ipv6_network_address ip p).getD i 0).testBit (7 - j)
        = ((ip.getD i 0).testBit (7 - j) && decide (8 * i + j < p))) := by
  refine ⟨ipv4_subnet_mask_eq_ref, ipv6_subnet_mask_eq_ref, ?_, ?_, ?_, ?_, ?_, ?_⟩
  · intro p i j hp hi hj
    rw [ipv4_subnet_mask_eq_ref p hp, refSubnetMask_testBit 4 p i j hi hj]
  · intro p i j hp hi hj
    rw [ipv6_subnet_mask_eq_ref p hp, refSubnetMask_testBit 16 p i j hi hj]
  · exact ipv4_network_address_getD
  · exact ipv6_network_address_getD
  · intro ip p i j hp hi hj
    rw [ipv4_network_address_getD ip p i hi, Nat.testBit_land,
      ipv4_subnet_mask_eq_ref p hp, refSubnetMask_testBit 4 p i j hi hj]
  · intro ip p i j hp hi hj
    rw [ipv6_network_address_getD ip p i hi, Nat.testBit_land,
      ipv6_subnet_mask_eq_ref p hp, refSubnetMask_testBit 16 p i j hi hj]

/-- Witness for C2 at concrete inputs: prefix 20 on a 16-byte address and
prefix 8 on a 4-byte one. -/
theorem C2_subnet_mask_correct_witness :
    ipv4_subnet_mask 8 = refSubnetMask 4 8 ∧
    ipv6_subnet_mask 20 = refSubnetMask 16 20 ∧
    ((ipv4_subnet_mask 8).getD 1 0).testBit (7 - 0) = decide (8 * 1 + 0 < 8) ∧
    ((ipv6_network_address [255, 255, 255, 255, 255, 255, 255, 255,
        255, 255, 255, 255, 255, 255, 255, 255] 20).getD 2 0).testBit (7 - 3)
      = (((255 : Nat).testBit (7 - 3)) && decide (8 * 2 + 3 < 20)) :=
  ⟨C2_subnet_mask_correct.1 8 (by decide),
   C2_subnet_mask_correct.2.1 20 (by decide),
   C2_subnet_mask_correct.2.2.1 8 1 0 (by decide) (by decide) (by decide),
   C2_subnet_mask_correct.2.2.2.2.2.2.2 _ 20 2 3 (by decide) (by decide) (by decide)⟩

/-- C1: for every 4-byte IPv4 address and prefix in 0..=32 (respectively
16-byte IPv6 address and prefix in 0..=128), `new` with that prefix fails
with the family address error exactly when the address differs from its
own network address under the prefix, and succeeds when the address
equals its network address, in which case `net()` returns the network
made of that address and prefix. -/
theorem C1_new_canonical :
    (∀ ip p, ip.length = 4 → (∀ b ∈ ip, b < 256) → p ≤ 32 →
      (ip ≠ ipv4_network_address ip p → Ipv4Target.new ip (some p) = .err .mk) ∧
      (ip = ipv4_network_address ip p →
        Ipv4Target.new ip (some p) = .ok ⟨ip, some p⟩ ∧
        Ipv4Target.net ⟨ip, some p⟩ = some (some ⟨ip, p⟩))) ∧
    (∀ ip p, ip.length = 16 → (∀ b ∈ ip, b < 256) → p ≤ 128 →
      (ip ≠ ipv6_network_address ip p → Ipv6Target.new ip (some p) = .err .mk) ∧
      (ip = ipv6_network_address ip p →
        Ipv6Target.new ip (some p) = .ok ⟨ip, some p⟩ ∧
        Ipv6Target.net ⟨ip, some p⟩ = some (some ⟨ip, p⟩))) := by
  constructor
  · intro ip p _ _ hp
    have hnotgt : ¬ 32 < p := Nat.not_lt.mpr hp
    constructor
    · intro hne
      simp [Ipv4Target.new, hnotgt, hne]
    · intro heq
      constructor
      · have hnn : ¬ ip ≠ ipv4_network_address ip p := fun hc => hc heq
        simp only [Ipv4Target.new]
        rw [if_neg hnotgt, if_neg hnn]
      · show Ipv4Target.net ⟨ip, some p⟩ = some (some ⟨ip, p⟩)
        simp only [Ipv4Target.net, Option.map_some']
        rw [← heq]
        simp [ipv4NetNew, hp]
  · intro ip p _ _ hp
    have hnotgt : ¬ 128 < p := Nat.not_lt.mpr hp
    constructor
    · intro hne
      simp [Ipv6Target.new, hnotgt, hne]
    · intro heq
      constructor
      · have hnn : ¬ ip ≠ ipv6_network_address ip p := fun hc => hc heq
        simp only [Ipv6Target.new]
        rw [if_neg hnotgt, if_neg hnn]
      · show Ipv6Target.net ⟨ip, some p⟩ = some (some ⟨ip, p⟩)
        simp only [Ipv6Target.net, Option.map_some']
        rw [← heq]
        simp [ipv6NetNew, hp]

/-- Witness for C1: the canonical `10.0.0.0/8` succeeds and the
non-canonical `10.0.0.1/8` fails; likewise `2001:db8::/32` succeeds. -/
theorem C1_new_canonical_witness :
    Ipv4Target.new [10, 0, 0, 0] (some 8) = .ok ⟨[10, 0, 0, 0], some 8⟩ ∧
    Ipv4Target.new [10, 0, 0, 1] (some 8) = .err .mk ∧
    Ipv6Target.new [32, 1, 13, 184, 0, 0, 0, 0, 0, 0, 0, 0, 0, 0, 0, 0] (some 32)
      = .ok ⟨[32, 1, 13, 184, 0, 0, 0, 0, 0, 0, 0, 0, 0, 0, 0, 0], some 32⟩ ∧
    Ipv4Target.net ⟨[10, 0, 0, 0], some 8⟩ = some (some ⟨[10, 0, 0, 0], 8⟩) :=
  ⟨((C1_new_canonical.1 [10, 0, 0, 0] 8 (by decide) (by decide) (by decide)).2
      (by decide)).1,
   (C1_new_canonical.1 [10, 0, 0, 1] 8 (by decide) (by decide) (by decide)).1
      (by decide),
   ((C1_new_canonical.2 [32, 1, 13, 184, 0, 0, 0, 0, 0, 0, 0, 0, 0, 0, 0, 0] 32
      (by decide) (by decide) (by decide)).2 (by decide)).1,
   ((C1_new_canonical.1 [10, 0, 0, 0] 8 (by decide) (by decide) (by decide)).2
      (by decide)).2⟩

theorem splitOnChar_slash_pair (a b : List Char) (ha : '/' ∉ a) (hb : '/' ∉ b) :
    splitOnChar '/' (a ++ '/' :: b) = [a, b] := by
  rw [splitOnChar_append_cons '/' a b ha, splitOnChar_of_not_mem '/' b hb]

theorem ipv4FromChars_append (a b : List Char) (ha : '/' ∉ a) (hb : '/' ∉ b) :
    ipv4FromChars (a ++ '/' :: b) = ipv4FromParts a [b] := by
  rw [ipv4FromChars, splitOnChar_slash_pair a b ha hb]

theorem ipv6FromChars_append (a b : List Char) (ha : '/' ∉ a) (hb : '/' ∉ b) :
    ipv6FromChars (a ++ '/' :: b) = ipv6FromParts a [b] := by
  rw [ipv6FromChars, splitOnChar_slash_pair a b ha hb]

theorem ipv4FromChars_noslash (a : List Char) (ha : '/' ∉ a) :
    ipv4FromChars a = ipv4FromParts a [] := by
  rw [ipv4FromChars, splitOnChar_of_not_mem '/' a ha]

theorem ipv6FromChars_noslash (a : List Char) (ha : '/' ∉ a) :
    ipv6FromChars a = ipv6FromParts a [] := by
  rw [ipv6FromChars, splitOnChar_of_not_mem '/' a ha]

theorem ipv4FromParts_prefix_none (ipStr pre : List Char) (h : parseU8 pre = none) :
    ipv4FromParts ipStr [pre] = ipv4FromParts ipStr [] := by
  simp [ipv4FromParts, h]

theorem ipv6FromParts_prefix_none (ipStr pre : List Char) (h : parseU8 pre = none) :
    ipv6FromParts ipStr [pre] = ipv6FromParts ipStr [] := by
  simp [ipv6FromParts, h]

theorem ipv4FromParts_prefix_big (ipStr pre : List Char) (p : Nat)
    (h : parseU8 pre = some p) (hp : 32 < p) :
    ipv4FromParts ipStr [pre] = .err .mk := by
  simp [ipv4FromParts, h, prefixOutOfRange, hp]

theorem ipv6FromParts_prefix_big (ipStr pre : List Char) (p : Nat)
    (h : parseU8 pre = some p) (hp : 128 < p) :
    ipv6FromParts ipStr [pre] = .err .mk := by
  simp [ipv6FromParts, h, prefixOutOfRange, hp]

theorem ipv4FromParts_rest_two (ipStr : List Char) (rest : List (List Char))
    (h : 2 ≤ rest.length) : ipv4FromParts ipStr rest = .err .mk := by
  simp only [ipv4FromParts, if_pos h]
  split <;> rfl

theorem ipv6FromParts_rest_two (ipStr : List Char) (rest : List (List Char))
    (h : 2 ≤ rest.length) : ipv6FromParts ipStr rest = .err .mk := by
  simp only [ipv6FromParts, if_pos h]
  split <;> rfl

/-- C3: with a prefix segment present (exactly one `/`), the segment must
parse as a `u8` not exceeding the family bit width: a value above the
width is a family parse error, while a segment that does not parse as an
integer at all is silently treated as an absent prefix, so the string
parses exactly like the bare address — in particular `"10.0.0.0/abc"`
yields address `10.0.0.0` with no prefix. -/
theorem C3_malformed_prefix_dropped :
    (∀ ipStr pre : List Char, '/' ∉ ipStr → '/' ∉ pre →
      (parseU8 pre = none →
        ipv4FromChars (ipStr ++ '/' :: pre) = ipv4FromChars ipStr ∧
        ipv6FromChars (ipStr ++ '/' :: pre) = ipv6FromChars ipStr) ∧
      (∀ p, parseU8 pre = some p →
        (32 < p → ipv4FromChars (ipStr ++ '/' :: pre) = .err .mk) ∧
        (128 < p → ipv6FromChars (ipStr ++ '/' :: pre) = .err .mk))) ∧
    ipv4FromChars ("10.0.0.0/abc".data) = .ok ⟨[10, 0, 0, 0], none⟩ ∧
    ipv6FromChars ("::1/abc".data) = .ok ⟨[0, 0, 0, 0, 0, 0, 0, 0, 0, 0, 0, 0, 0, 0, 0, 1], none⟩ := by
  refine ⟨?_, by decide, by decide⟩
  intro ipStr pre hip hpre
  constructor
  · intro hnone
    rw [ipv4FromChars_append ipStr pre hip hpre,
      ipv6FromChars_append ipStr pre hip hpre,
      ipv4FromChars_noslash ipStr hip, ipv6FromChars_noslash ipStr hip,
      ipv4FromParts_prefix_none ipStr pre hnone,
      ipv6FromParts_prefix_none ipStr pre hnone]
    exact ⟨rfl, rfl⟩
  · intro p hsome
    refine ⟨fun hp => ?_, fun hp => ?_⟩
    · rw [ipv4FromChars_append ipStr pre hip hpre,
        ipv4FromParts_prefix_big ipStr pre p hsome hp]
    · rw [ipv6FromChars_append ipStr pre hip hpre,
        ipv6FromParts_prefix_big ipStr pre p hsome hp]

/-- Witness for C3 at `"10.0.0.0"` with the unparsable segment `"abc"`
and the out-of-range segments `"33"` and `"200"`. -/
theorem C3_malformed_prefix_dropped_witness :
    (ipv4FromChars ("10.0.0.0".data ++ '/' :: "abc".data)
        = ipv4FromChars ("10.0.0.0".data) ∧
      ipv6FromChars ("10.0.0.0".data ++ '/' :: "abc".data)
        = ipv6FromChars ("10.0.0.0".data)) ∧
    ipv4FromChars ("10.0.0.0".data ++ '/' :: "33".data) = .err .mk ∧
    ipv6FromChars ("::1".data ++ '/' :: "200".data) = .err .mk :=
  ⟨(C3_malformed_prefix_dropped.1 ("10.0.0.0".data) ("abc".data)
      (by decide) (by decide)).1 (by decide),
   ((C3_malformed_prefix_dropped.1 ("10.0.0.0".data) ("33".data)
      (by decide) (by decide)).2 33 (by decide)).1 (by decide),
   ((C3_malformed_prefix_dropped.1 ("::1".data) ("200".data)
      (by decide) (by decide)).2 200 (by decide)).2 (by decide)⟩

/-- C7: an input containing at least two `/` characters is rejected by
both family parsers. -/
theorem C7_second_slash_rejected :
    ∀ s : List Char, 2 ≤ s.count '/' →
      ipv4FromChars s = .err .mk ∧ ipv6FromChars s = .err .mk := by
  intro s hs
  have hlen : 3 ≤ (splitOnChar '/' s).length := by
    rw [splitOnChar_length]
    omega
  rcases h : splitOnChar '/' s with _ | ⟨ipStr, rest⟩
  · exact absurd h (splitOnChar_ne_nil '/' s)
  · have hrest : 2 ≤ rest.length := by
      rw [h] at hlen
      simpa using hlen
    rw [ipv4FromChars, ipv6FromChars, h]
    exact ⟨ipv4FromParts_rest_two ipStr rest hrest,
      ipv6FromParts_rest_two ipStr rest hrest⟩

/-- Witness for C7: `"10.0.0.0/8/9"` fails in both family parsers. -/
theorem C7_second_slash_rejected_witness :
    ipv4FromChars ("10.0.0.0/8/9".data) = .err .mk ∧
    ipv6FromChars ("10.0.0.0/8/9".data) = .err .mk :=
  C7_second_slash_rejected ("10.0.0.0/8/9".data) (by decide)

theorem Ipv4Target_new_ok_prefix_le (ip : List Nat) (pl : Option Nat) (t : Ipv4Target)
    (h : Ipv4Target.new ip pl = .ok t) : ∀ p, t.prefix_len = some p → p ≤ 32 := by
  intro p hp
  cases pl with
  | none =>
    simp only [Ipv4Target.new] at h
    cases h
    simp at hp
  | some q =>
    simp only [Ipv4Target.new] at h
    split at h
    · exact absurd h (by simp)
    · split at h
      · exact absurd h (by simp)
      · cases h
        simp at hp
        omega

theorem Ipv6Target_new_ok_prefix_le (ip : List Nat) (pl : Option Nat) (t : Ipv6Target)
    (h : Ipv6Target.new ip pl = .ok t) : ∀ p, t.prefix_len = some p → p ≤ 128 := by
  intro p hp
  cases pl with
  | none =>
    simp only [Ipv6Target.new] at h
    cases h
    simp at hp
  | some q =>
    simp only [Ipv6Target.new] at h
    split at h
    · exact absurd h (by simp)
    · split at h
      · exact absurd h (by simp)
      · cases h
        simp at hp
        omega

theorem ipv4FromParts_ok_prefix_le (ipStr : List Char) (rest : List (List Char))
    (t : Ipv4Target) (h : ipv4FromParts ipStr rest = .ok t) :
    ∀ p, t.prefix_len = some p → p ≤ 32 := by
  intro p hp
  simp only [ipv4FromParts] at h
  split at h
  · exact absurd h (by simp)
  next hpre =>
    split at h
    · exact absurd h (by simp)
    · split at h
      · exact absurd h (by simp)
      · split at h
        next q heqq =>
          split at h
          · exact absurd h (by simp)
          · cases h
            simp at hp
            rw [heqq, hp] at hpre
            simp [prefixOutOfRange] at hpre
            omega
        next heqq =>
          cases h
          simp at hp

theorem ipv6FromParts_ok_prefix_le (ipStr : List Char) (rest : List (List Char))
    (t : Ipv6Target) (h : ipv6FromParts ipStr rest = .ok t) :
    ∀ p, t.prefix_len = some p → p ≤ 128 := by
  intro p hp
  simp only [ipv6FromParts] at h
  split at h
  · exact absurd h (by simp)
  next hpre =>
    split at h
    · exact absurd h (by simp)
    · split at h
      · exact absurd h (by simp)
      · split at h
        next q heqq =>
          split at h
          · exact absurd h (by simp)
          · cases h
            simp at hp
            rw [heqq, hp] at hpre
            simp [prefixOutOfRange] at hpre
            omega
        next heqq =>
          cases h
          simp at hp

theorem Ipv4Target_net_safe (t : Ipv4Target)
    (hb : ∀ p, t.prefix_len = some p → p ≤ 32) : t.net ≠ some none := by
  rcases ht : t.prefix_len with _ | p
  · simp [Ipv4Target.net, ht]
  · have hle := hb p ht
    simp [Ipv4Target.net, ht, ipv4NetNew, hle]

theorem Ipv6Target_net_safe (t : Ipv6Target)
    (hb : ∀ p, t.prefix_len = some p → p ≤ 128) : t.net ≠ some none := by
  rcases ht : t.prefix_len with _ | p
  · simp [Ipv6Target.net, ht]
  · have hle := hb p ht
    simp [Ipv6Target.net, ht, ipv6NetNew, hle]

theorem ipv4FromChars_ok_prefix_le (s : List Char) (t : Ipv4Target)
    (h : ipv4FromChars s = .ok t) : ∀ p, t.prefix_len = some p → p ≤ 32 := by
  rw [ipv4FromChars] at h
  rcases hs : splitOnChar '/' s with _ | ⟨ipStr, rest⟩
  · exact absurd hs (splitOnChar_ne_nil '/' s)
  · rw [hs] at h
    exact ipv4FromParts_ok_prefix_le ipStr rest t h

theorem ipv6FromChars_ok_prefix_le (s : List Char) (t : Ipv6Target)
    (h : ipv6FromChars s = .ok t) : ∀ p, t.prefix_len = some p → p ≤ 128 := by
  rw [ipv6FromChars] at h
  rcases hs : splitOnChar '/' s with _ | ⟨ipStr, rest⟩
  · exact absurd hs (splitOnChar_ne_nil '/' s)
  · rw [hs] at h
    exact ipv6FromParts_ok_prefix_le ipStr rest t h

/-- C9: every successfully constructed target carries a prefix length
within the family bit width, so the `ipnet` `unwrap` inside `net()` never
sees a `PrefixLenError` (`t.net ≠ some none`, `some none` being the
panicking unwrap), and `ipv6_subnet_mask` is only ever reached with a
prefix for which all its byte writes are in bounds — while for prefix
lengths 129..=135 the partial-byte write index would be out of
bounds. -/
theorem C9_no_panics :
    (∀ ip pl t, Ipv4Target.new ip pl = .ok t → t.net ≠ some none) ∧
    (∀ s t, ipv4FromChars s = .ok t → t.net ≠ some none) ∧
    (∀ ip pl t, Ipv6Target.new ip pl = .ok t → t.net ≠ some none) ∧
    (∀ s t, ipv6FromChars s = .ok t → t.net ≠ some none) ∧
    (∀ p, p ≤ 128 → ipv6MaskInBounds p = true) ∧
    (∀ p, 129 ≤ p → p ≤ 135 → ipv6MaskInBounds p = false) ∧
    (∀ ip pl t, Ipv6Target.new ip pl = .ok t →
      ∀ p, t.prefix_len = some p → ipv6MaskInBounds p = true) ∧
    (∀ s t, ipv6FromChars s = .ok t →
      ∀ p, t.prefix_len = some p → ipv6MaskInBounds p = true) := by
  have hbounds : ∀ p, p ≤ 128 → ipv6MaskInBounds p = true := by
    intro p hp
    simp only [ipv6MaskInBounds, Bool.and_eq_true, Bool.or_eq_true,
      decide_eq_true_eq]
    omega
  refine ⟨?_, ?_, ?_, ?_, hbounds, ?_, ?_, ?_⟩
  · intro ip pl t h
    exact Ipv4Target_net_safe t (Ipv4Target_new_ok_prefix_le ip pl t h)
  · intro s t h
    exact Ipv4Target_net_safe t (ipv4FromChars_ok_prefix_le s t h)
  · intro ip pl t h
    exact Ipv6Target_net_safe t (Ipv6Target_new_ok_prefix_le ip pl t h)
  · intro s t h
    exact Ipv6Target_net_safe t (ipv6FromChars_ok_prefix_le s t h)
  · intro p h1 h2
    interval_cases p <;> rfl
  · intro ip pl t h p hp
    exact hbounds p (Ipv6Target_new_ok_prefix_le ip pl t h p hp)
  · intro s t h p hp
    exact hbounds p (ipv6FromChars_ok_prefix_le s t h p hp)

/-- Witness for C9 at concrete successful constructions and at prefix
lengths 128 and 129. -/
theorem C9_no_panics_witness :
    (Ipv4Target.mk [10, 0, 0, 0] (some 8)).net ≠ some none ∧
    ipv6MaskInBounds 128 = true ∧
    ipv6MaskInBounds 129 = false :=
  ⟨C9_no_panics.1 [10, 0, 0, 0] (some 8) ⟨[10, 0, 0, 0], some 8⟩ (by decide),
   C9_no_panics.2.2.2.2.1 128 (by decide),
   C9_no_panics.2.2.2.2.2.1 129 (by decide) (by decide)⟩

/-- C4 counterexample: on `"not-an-ip"` both family parsers reject the
input (so in particular a family's parser rejected it), yet the error
returned by `InetTarget::from_str` is the catch-all `Other`, not a
wrapped `V4` or `V6` family error. -/
theorem C4_counterexample :
    ipv4FromChars ("not-an-ip".data) = .err .mk ∧
    ipv6FromChars ("not-an-ip".data) = .err .mk ∧
    inetFromChars ("not-an-ip".data) = .err .Other ∧
    InetError.Other ≠ .V4 .mk ∧ InetError.Other ≠ .V6 .mk := by
  refine ⟨by decide, by decide, by decide, by decide, by decide⟩

/-- C4 amended: whenever `InetTarget::from_str` fails, the returned error
is the catch-all `Other` kind (returned exactly when neither family's
parser accepts the input); the `V4`/`V6` wrapping variants of `InetError`
are never produced by `from_str`. -/
theorem C4_error_always_other :
    ∀ (s : List Char) (e : InetError), inetFromChars s = .err e → e = .Other := by
  intro s e h
  rw [inetFromChars] at h
  rcases h4 : ipv4FromChars s with e4 | t4
  · rw [h4] at h
    rcases h6 : ipv6FromChars s with e6 | t6
    · rw [h6] at h
      cases h
      rfl
    · rw [h6] at h
      exact absurd h (by simp)
  · rw [h4] at h
    exact absurd h (by simp)

/-- Witness for the amended C4 at input `"not-an-ip"`. -/
theorem C4_error_always_other_witness : InetError.Other = .Other :=
  C4_error_always_other ("not-an-ip".data) InetError.Other (by decide)

/-- C6: `InetTarget::from_str` tries the IPv4 parse first and wraps a
success in the `V4` variant; only when IPv4 fails does it try IPv6,
wrapping a success in `V6`; when both fail it returns an error.  On
`"10.0.0.0/8"` it yields the IPv4 variant, on `"::1"` the IPv6 variant,
and on `"not-an-ip"` the aggregate `Other` error. -/
theorem C6_inet_parse_order :
    (∀ s t4, ipv4FromChars s = .ok t4 → inetFromChars s = .ok (.V4 t4)) ∧
    (∀ s e4 t6, ipv4FromChars s = .err e4 → ipv6FromChars s = .ok t6 →
      inetFromChars s = .ok (.V6 t6)) ∧
    (∀ s e4 e6, ipv4FromChars s = .err e4 → ipv6FromChars s = .err e6 →
      inetFromChars s = .err .Other) ∧
    inetFromChars ("10.0.0.0/8".data) = .ok (.V4 ⟨[10, 0, 0, 0], some 8⟩) ∧
    inetFromChars ("::1".data)
      = .ok (.V6 ⟨[0, 0, 0, 0, 0, 0, 0, 0, 0, 0, 0, 0, 0, 0, 0, 1], none⟩) ∧
    inetFromChars ("not-an-ip".data) = .err .Other := by
  refine ⟨?_, ?_, ?_, by decide, by decide, by decide⟩
  · intro s t4 h4
    rw [inetFromChars, h4]
  · intro s e4 t6 h4 h6
    rw [inetFromChars, h4, h6]
  · intro s e4 e6 h4 h6
    rw [inetFromChars, h4, h6]

/-- Witness for C6: the IPv4-first ordering applied at `"10.0.0.0/8"` and
the IPv6 fallback applied at `"::1"`. -/
theorem C6_inet_parse_order_witness :
    inetFromChars ("10.0.0.0/8".data) = .ok (.V4 ⟨[10, 0, 0, 0], some 8⟩) ∧
    inetFromChars ("::1".data)
      = .ok (.V6 ⟨[0, 0, 0, 0, 0, 0, 0, 0, 0, 0, 0, 0, 0, 0, 0, 1], none⟩) :=
  ⟨C6_inet_parse_order.1 ("10.0.0.0/8".data) ⟨[10, 0, 0, 0], some 8⟩ (by decide),
   C6_inet_parse_order.2.1 ("::1".data) .mk
     ⟨[0, 0, 0, 0, 0, 0, 0, 0, 0, 0, 0, 0, 0, 0, 0, 1], none⟩
     (by decide) (by decide)⟩

/-- Projection of a socket address to its IPv4 payload. -/
def sockV4 : SockAddr → Option (List Nat)
  | .V4 ip => some ip
  | .V6 _ => none

/-- Projection of a socket address to its IPv6 payload. -/
def sockV6 : SockAddr → Option (List Nat)
  | .V4 _ => none
  | .V6 ip => some ip

theorem classifyAddrs_go (addrs : List SockAddr) (r : ResolvedAddrs) :
    (addrs.foldl
      (fun r a =>
        match a with
        | .V4 ip => { r with v4 := r.v4 ++ [ip] }
        | .V6 ip => { r with v6 := r.v6 ++ [ip] })
      r)
    = ⟨r.v4 ++ addrs.filterMap sockV4, r.v6 ++ addrs.filterMap sockV6⟩ := by
  induction addrs generalizing r with
  | nil => simp
  | cons a rest ih =>
    cases a with
    | V4 ip =>
      simp only [List.foldl_cons, ih, List.filterMap_cons, sockV4, sockV6]
      simp
    | V6 ip =>
      simp only [List.foldl_cons, ih, List.filterMap_cons, sockV4, sockV6]
      simp

/-- C8: for every address sequence returned by the resolver,
`resolve_blocking` succeeds with a `ResolvedAddrs` whose `v4` list is
exactly the IPv4 addresses of the sequence in their original order and
whose `v6` list is exactly the IPv6 addresses in their original order —
nothing is dropped, duplicated, or placed in the other family's list. -/
theorem C8_resolve_partitions :
    ∀ addrs : List SockAddr,
      resolve_blocking (.ok addrs) = .ok (classifyAddrs addrs) ∧
      (classifyAddrs addrs).v4 = addrs.filterMap sockV4 ∧
      (classifyAddrs addrs).v6 = addrs.filterMap sockV6 := by
  intro addrs
  refine ⟨rfl, ?_, ?_⟩ <;>
    simp [classifyAddrs, classifyAddrs_go addrs ⟨[], []⟩]

/-- Stripping of a single trailing dot, the spec-side reading of the
trailing-dot handling in C5. -/
def stripOneTrailingDot (cs : List Char) : List Char :=
  if cs.getLast? = some '.' then cs.dropLast else cs

/-- Whether a string ends in two (or more) dots.  Normalized DNS names
never do. -/
def endsWithTwoDots (cs : List Char) : Bool :=
  match cs.reverse with
  | '.' :: '.' :: _ => true
  | _ => false

/-- Spec-side hostname validity from the words of C5: after stripping one
trailing dot, the string is non-empty and every `.`-delimited label
matches the label regex case-insensitively and is not composed entirely
of digits. -/
def specDnsHostValid (h : List Char) : Bool :=
  let h' := stripOneTrailingDot h
  !h'.isEmpty &&
    (splitOnChar '.' h').all (fun l => matchesDnsLabelRe l && !matchesDigitsOnlyRe l)

theorem trimTrailingDots_eq_stripOne (h : List Char)
    (hnd : endsWithTwoDots h = false) :
    trimTrailingDots h = stripOneTrailingDot h := by
  rcases hr : h.reverse with _ | ⟨c, r⟩
  · have : h = [] := by
      have := congrArg List.reverse hr
      simpa using this
    subst this
    rfl
  · have hh : h = (c :: r).reverse := by
      have := congrArg List.reverse hr
      simpa using this
    by_cases hc : c = '.'
    · subst hc
      have hr' : r.head? ≠ some '.' := by
        intro hhead
        rcases r with _ | ⟨c', r'⟩
        · simp at hhead
        · simp at hhead
          subst hhead
          rw [endsWithTwoDots, hr] at hnd
          simp at hnd
      have hdrop : r.dropWhile (fun x => x = '.') = r := by
        rcases r with _ | ⟨c', r'⟩
        · rfl
        · have : ¬ c' = '.' := by
            intro hc'
            exact hr' (by simp [hc'])
          simp [List.dropWhile_cons, this]
      rw [trimTrailingDots, hr]
      rw [stripOneTrailingDot]
      have hlast : h.getLast? = some '.' := by
        rw [hh, List.getLast?_reverse]
        rfl
      rw [if_pos hlast, hh]
      simp only [List.reverse_cons, List.dropLast_concat]
      simp [List.dropWhile_cons, hdrop]
    · rw [trimTrailingDots, hr]
      rw [stripOneTrailingDot]
      have hlast : h.getLast? = some c := by
        rw [hh, List.getLast?_reverse]
        rfl
      have hne : h.getLast? ≠ some '.' := by
        rw [hlast]
        simp [hc]
      rw [if_neg hne, hh]
      simp [List.dropWhile_cons, hc]

/-- C5: applied to a structurally parsed and normalized (hence ASCII and
not double-dot-terminated) hostname, `DnsHostname::new` accepts exactly
when, after stripping one trailing dot, the string is non-empty and every
`.`-delimited label matches
`^[A-Za-z0-9]([A-Za-z0-9-]{0,61}[A-Za-z0-9])?$` case-insensitively and is
not composed entirely of digits.  In particular `"example.com"` succeeds
while `"123"`, `"-bad-.com"` and a 64-character label fail with the
invalid-input error. -/
theorem C5_hostname_validation :
    (∀ h : List Char, h.all (fun c => c.toNat < 128) → endsWithTwoDots h = false →
      (dnsHostnameNewNormalized h = .ok h ↔ specDnsHostValid h = true)) ∧
    dnsHostnameNewNormalized ("example.com".data) = .ok ("example.com".data) ∧
    dnsHostnameNewNormalized ("123".data) = .err .InvalidInput ∧
    dnsHostnameNewNormalized ("-bad-.com".data) = .err .InvalidInput ∧
    dnsHostnameNewNormalized (List.replicate 64 'a' ++ ".com".data)
      = .err .InvalidInput := by
  refine ⟨?_, by decide, by decide, by decide, by decide⟩
  intro h _ hnd
  have hvalid : is_valid_dns_host h = specDnsHostValid h := by
    rw [is_valid_dns_host, specDnsHostValid, trimTrailingDots_eq_stripOne h hnd]
    rfl
  rw [dnsHostnameNewNormalized, hvalid]
  by_cases hv : specDnsHostValid h = true
  · simp [hv]
  · simp [hv]

/-- Witness for C5 at the normalized hostname `"example.com."` (with its
trailing dot). -/
theorem C5_hostname_validation_witness :
    dnsHostnameNewNormalized ("example.com.".data) = .ok ("example.com.".data) ↔
      specDnsHostValid ("example.com.".data) = true :=
  C5_hostname_validation.1 ("example.com.".data) (by decide) (by decide)

/-- Numeric value of a decimal digit string (the spec-side reading of
"prefix segment whose value exceeds 255"), folded from an initial
accumulator. -/
def decDigitsValFrom (acc : Nat) (cs : List Char) : Nat :=
  cs.foldl (fun a c => a * 10 + (c.toNat - 48)) acc

/-- Numeric value of a decimal digit string. -/
def decDigitsVal (cs : List Char) : Nat :=
  decDigitsValFrom 0 cs

theorem decDigitsValFrom_ge (cs : List Char) (acc : Nat) :
    acc ≤ decDigitsValFrom acc cs := by
  induction cs generalizing acc with
  | nil => simp [decDigitsValFrom]
  | cons c cs ih =>
    have h1 : acc ≤ acc * 10 + (c.toNat - 48) := by omega
    exact Nat.le_trans h1 (ih (acc * 10 + (c.toNat - 48)))

theorem decDigit_of_digitChar (c : Char) (h : isAsciiDigitChar c = true) :
    decDigit c = some (c.toNat - 48) := by
  simp only [isAsciiDigitChar, Bool.and_eq_true, decide_eq_true_eq] at h
  simp [decDigit, h.1, h.2]

theorem parseU8Core_digits (cs : List Char) (acc : Nat)
    (hd : cs.all isAsciiDigitChar = true) (hacc : acc ≤ 255) :
    (decDigitsValFrom acc cs ≤ 255 →
      parseU8Core cs acc = some (decDigitsValFrom acc cs)) ∧
    (255 < decDigitsValFrom acc cs → parseU8Core cs acc = none) := by
  induction cs generalizing acc with
  | nil =>
    refine ⟨fun _ => rfl, fun hgt => ?_⟩
    simp [decDigitsValFrom] at hgt
    omega
  | cons c cs ih =>
    simp only [List.all_cons, Bool.and_eq_true] at hd
    have hdig := decDigit_of_digitChar c hd.1
    have hval : decDigitsValFrom acc (c :: cs)
        = decDigitsValFrom (acc * 10 + (c.toNat - 48)) cs := rfl
    by_cases hbig : 255 < acc * 10 + (c.toNat - 48)
    · have hgt : 255 < decDigitsValFrom acc (c :: cs) := by
        rw [hval]
        exact Nat.lt_of_lt_of_le hbig (decDigitsValFrom_ge cs _)
      refine ⟨fun hle => absurd hle (by omega), fun _ => ?_⟩
      simp [parseU8Core, hdig, if_pos hbig]
    · have hle' : acc * 10 + (c.toNat - 48) ≤ 255 := by omega
      have ihh := ih (acc * 10 + (c.toNat - 48)) hd.2 hle'
      refine ⟨fun hle => ?_, fun hgt => ?_⟩
      · rw [hval] at hle ⊢
        simp only [parseU8Core, hdig]
        rw [if_neg hbig]
        exact ihh.1 hle
      · rw [hval] at hgt
        simp only [parseU8Core, hdig]
        rw [if_neg hbig]
        exact ihh.2 hgt

theorem parseU8_all_digits (cs : List Char) (hne : cs ≠ [])
    (hd : cs.all isAsciiDigitChar = true) :
    parseU8 cs = parseU8Core cs 0 := by
  rcases cs with _ | ⟨c, rest⟩
  · exact absurd rfl hne
  · simp only [List.all_cons, Bool.and_eq_true] at hd
    have hc : c ≠ '+' := by
      intro hc
      rw [hc] at hd
      simp [isAsciiDigitChar] at hd
    rw [parseU8.eq_def]
    split
    · simp_all
    next heq =>
      injection heq with h1 h2
      exact absurd h1 hc
    · rfl

theorem parseU8_digits_overflow (cs : List Char) (hne : cs ≠ [])
    (hd : cs.all isAsciiDigitChar = true) (hbig : 255 < decDigitsVal cs) :
    parseU8 cs = none := by
  rw [parseU8_all_digits cs hne hd]
  exact (parseU8Core_digits cs 0 hd (by omega)).2 hbig

/-- C10: a numeric prefix segment whose value exceeds 255 fails the `u8`
parse, so the prefix is silently treated as absent and the whole string
parses as a bare address (e.g. `"10.0.0.0/300"`, `"10.0.0.1/999"`),
whereas out-of-range values representable in 8 bits (33..=255 for IPv4,
129..=255 for IPv6) make the parse fail with the family error — the
out-of-range rejection applies only to prefix values that fit in 8
bits. -/
theorem C10_overflowed_prefix_dropped :
    (∀ ipStr pre : List Char, '/' ∉ ipStr → '/' ∉ pre →
      pre ≠ [] → pre.all isAsciiDigitChar = true → 255 < decDigitsVal pre →
        parseU8 pre = none ∧
        ipv4FromChars (ipStr ++ '/' :: pre) = ipv4FromChars ipStr ∧
        ipv6FromChars (ipStr ++ '/' :: pre) = ipv6FromChars ipStr) ∧
    (∀ (ipStr pre : List Char) (p : Nat), '/' ∉ ipStr → '/' ∉ pre →
      parseU8 pre = some p →
      (33 ≤ p → p ≤ 255 → ipv4FromChars (ipStr ++ '/' :: pre) = .err .mk) ∧
      (129 ≤ p → p ≤ 255 → ipv6FromChars (ipStr ++ '/' :: pre) = .err .mk)) ∧
    ipv4FromChars ("10.0.0.0/300".data) = .ok ⟨[10, 0, 0, 0], none⟩ ∧
    ipv4FromChars ("10.0.0.1/999".data) = .ok ⟨[10, 0, 0, 1], none⟩ ∧
    ipv6FromChars ("::1/300".data)
      = .ok ⟨[0, 0, 0, 0, 0, 0, 0, 0, 0, 0, 0, 0, 0, 0, 0, 1], none⟩ ∧
    ipv4FromChars ("10.0.0.0/33".data) = .err .mk ∧
    ipv6FromChars ("::/129".data) = .err .mk := by
  refine ⟨?_, ?_, by decide, by decide, by decide, by decide, by decide⟩
  · intro ipStr pre hip hpre hne hdig hbig
    have hnone := parseU8_digits_overflow pre hne hdig hbig
    refine ⟨hnone, ?_, ?_⟩
    · rw [ipv4FromChars_append ipStr pre hip hpre,
        ipv4FromChars_noslash ipStr hip,
        ipv4FromParts_prefix_none ipStr pre hnone]
    · rw [ipv6FromChars_append ipStr pre hip hpre,
        ipv6FromChars_noslash ipStr hip,
        ipv6FromParts_prefix_none ipStr pre hnone]
  · intro ipStr pre p hip hpre hsome
    refine ⟨fun hlo _ => ?_, fun hlo _ => ?_⟩
    · rw [ipv4FromChars_append ipStr pre hip hpre,
        ipv4FromParts_prefix_big ipStr pre p hsome (by omega)]
    · rw [ipv6FromChars_append ipStr pre hip hpre,
        ipv6FromParts_prefix_big ipStr pre p hsome (by omega)]

/-- Witness for C10: the overflowing segment `"300"` after `"10.0.0.0"`,
and the 8-bit-representable out-of-range segments `"33"` and `"129"`. -/
theorem C10_overflowed_prefix_dropped_witness :
    (parseU8 ("300".data) = none ∧
      ipv4FromChars ("10.0.0.0".data ++ '/' :: "300".data)
        = ipv4FromChars ("10.0.0.0".data) ∧
      ipv6FromChars ("10.0.0.0".data ++ '/' :: "300".data)
        = ipv6FromChars ("10.0.0.0".data)) ∧
    ipv4FromChars ("10.0.0.0".data ++ '/' :: "33".data) = .err .mk ∧
    ipv6FromChars ("::".data ++ '/' :: "129".data) = .err .mk :=
  ⟨C10_overflowed_prefix_dropped.1 ("10.0.0.0".data) ("300".data)
      (by decide) (by decide) (by decide) (by decide) (by decide),
   (C10_overflowed_prefix_dropped.2.1 ("10.0.0.0".data) ("33".data) 33
      (by decide) (by decide) (by decide)).1 (by decide) (by decide),
   (C10_overflowed_prefix_dropped.2.1 ("::".data) ("129".data) 129
      (by decide) (by decide) (by decide)).2 (by decide) (by decide)⟩
